import Mathlib

/-!
Verification of the Diagram Builder of the cs-pathways repository
(src/src/components/Overview.tsx).

The builder turns a static list of sequences (each an ordered list of
videos, with optional cross-sequence dependency identifiers) into the
node list and edge list handed to the graph-rendering library.  The
definitions below are a shallow embedding of that code: pure Lean
functions mirroring the TypeScript, field for field and branch for
branch.  JavaScript numbers only ever hold small non-negative integers
here (grid offsets), so positions are embedded as naturals.
-/

namespace CsPathways

/-- A video entry of the input data (`sequences.json`).  `dependencies`
is optional in the data; `none` models the field being absent
(`if (video.dependencies)` in the code skips dependency processing). -/
structure Video where
  id : String
  title : String
  description : String
  url : String
  dependencies : Option (List String)
deriving DecidableEq, Repr

/-- A sequence entry of the input data: identifier, display metadata and
ordered list of videos. -/
structure Sequence where
  id : String
  title : String
  description : String
  color : String
  videos : List Video
deriving DecidableEq, Repr

/-- A 2D position.  All coordinates produced by the builder are
non-negative multiples of the two spacing constants. -/
structure Pos where
  x : Nat
  y : Nat
deriving DecidableEq, Repr

/-- Payload of a generated node: either the data of a sequence-header
node (`title`, `description`, `color`) or of a video node
(`title`, `description`, `url`, `sequenceColor`). -/
inductive NodeData where
  | header (title description color : String)
  | video (title description url sequenceColor : String)
deriving DecidableEq, Repr

/-- A generated node: identifier, node type tag, position, payload. -/
structure Node where
  id : String
  type : String
  position : Pos
  data : NodeData
deriving DecidableEq, Repr

/-- A generated edge.  The fields record everything that varies between
the two edge kinds the builder emits: identifiers, endpoint handles,
stroke styling and the optional label.  (The remaining attributes of a
dependency edge in the code — `labelStyle`, `labelBgPadding`,
`labelBgBorderRadius`, `labelBgStyle` — are constants attached exactly
when `label` is present, so they carry no extra information.) -/
structure Edge where
  id : String
  source : String
  sourceHandle : String
  target : String
  targetHandle : String
  type : String
  stroke : String
  strokeWidth : Nat
  strokeDasharray : Option String
  label : Option String
deriving DecidableEq, Repr

/-- Vertical space between sequences: `const sequenceSpacing = 600`. -/
def sequenceSpacing : Nat := 600

/-- Horizontal space between videos: `const videoSpacing = 420`. -/
def videoSpacing : Nat := 420

/-- Identifier of the header node of a sequence:
`` `sequence-${sequence.id}` ``. -/
def headerNodeId (s : Sequence) : String := "sequence-" ++ s.id

/-- Identifier of the node of video `v` of a sequence:
`` `${sequence.id}-${video.id}` ``. -/
def videoNodeId (seqId vidId : String) : String := seqId ++ "-" ++ vidId

/-- The sequence-header node pushed for a sequence at vertical offset
`y` (Overview.tsx lines 116-125). -/
def headerNode (s : Sequence) (y : Nat) : Node :=
  { id := headerNodeId s
    type := "sequenceHeader"
    position := { x := 0, y := y }
    data := .header s.title s.description s.color }

/-- The node pushed for the video at index `videoIndex` of a sequence
at vertical offset `y` (Overview.tsx lines 131-144). -/
def videoNode (s : Sequence) (v : Video) (videoIndex y : Nat) : Node :=
  { id := videoNodeId s.id v.id
    type := "videoNode"
    position := { x := (videoIndex + 1) * videoSpacing, y := y }
    data := .video v.title v.description v.url s.color }

/-- A "sequence flow" edge (Overview.tsx lines 148-156 and 162-170):
both the header→first-video edge and each video→next-video edge have
this exact shape, differing only in their source. -/
def flowEdge (color src tgt : String) : Edge :=
  { id := src ++ "-" ++ tgt
    source := src
    sourceHandle := "sequence-out"
    target := tgt
    targetHandle := "sequence-in"
    type := "smoothstep"
    stroke := color
    strokeWidth := 2
    strokeDasharray := none
    label := none }

/-- A "prerequisite" (cross-sequence dependency) edge
(Overview.tsx lines 182-203). -/
def depEdge (src tgt : String) : Edge :=
  { id := src ++ "-" ++ tgt ++ "-dependency"
    source := src
    sourceHandle := "prereq-out"
    target := tgt
    targetHandle := "prereq-in"
    type := "smoothstep"
    stroke := "#ef4444"
    strokeWidth := 3
    strokeDasharray := some "8,4"
    label := some "🔗 prerequisite" }

/-- Dependency resolution (Overview.tsx lines 176-179):

```
const sourceNodeId = sequences.flatMap(seq => seq.videos)
  .find(v => v.id === depId) ?
  `${sequences.find(seq => seq.videos.some(v => v.id === depId))?.id}-${depId}` :
  null;
```

If no video anywhere has identifier `depId` the result is `none`
(the code yields `null`); otherwise the first sequence containing such
a video supplies the `seq.id` of the template string.  (The `?.id`
would stringify as `"undefined"` if the inner `find` failed, which is
unreachable because the outer guard found a video; the embedding keeps
that dead branch via `Option.map` and the same guard.) -/
def resolveDep (seqs : List Sequence) (depId : String) : Option String :=
  if ((seqs.flatMap (fun s => s.videos)).find? (fun v => v.id == depId)).isSome then
    some (videoNodeId
      (match (seqs.find? (fun s => s.videos.any (fun v => v.id == depId))).map Sequence.id with
       | some i => i
       | none => "undefined")
      depId)
  else
    none

/-- The dependency edge pushed for one identifier `depId` of a video
whose node is `nid` (Overview.tsx lines 181-204): emitted exactly when
the identifier resolves, skipped silently otherwise. -/
def depEdgeFor (seqs : List Sequence) (depId nid : String) : Option Edge :=
  (resolveDep seqs depId).map (fun src => depEdge src nid)

/-- All dependency edges of one video (Overview.tsx lines 174-206):
absent `dependencies` contribute nothing, otherwise each identifier is
processed in order. -/
def depEdgesOf (seqs : List Sequence) (v : Video) (nid : String) : List Edge :=
  match v.dependencies with
  | none => []
  | some deps => deps.filterMap (fun d => depEdgeFor seqs d nid)

/-- Edges contributed by the videos of sequence `s`, in push order:
for each video first its "sequence flow" edge, then its dependency
edges.  `prev` is the node the flow edge comes from — the header node
for the first video (the `videoIndex === 0` branch of the code), the
previous video's node afterwards (the `videoIndex > 0` branch). -/
def videosEdges (seqs : List Sequence) (s : Sequence) :
    List Video → String → List Edge
  | [], _ => []
  | v :: rest, prev =>
      flowEdge s.color prev (videoNodeId s.id v.id) ::
        (depEdgesOf seqs v (videoNodeId s.id v.id) ++
          videosEdges seqs s rest (videoNodeId s.id v.id))

/-- All edges the builder pushes while processing sequence `s`. -/
def seqEdges (seqs : List Sequence) (s : Sequence) : List Edge :=
  videosEdges seqs s s.videos (headerNodeId s)

/-- All nodes the builder pushes while processing sequence `s` at
vertical offset `y`: the header node, then one node per video in
order. -/
def seqNodes (s : Sequence) (y : Nat) : List Node :=
  headerNode s y :: s.videos.enum.map (fun p => videoNode s p.2 p.1 y)

/-- The `sequences.forEach` loop (Overview.tsx lines 113-210): `y` is
the running `yOffset`, advanced by `sequenceSpacing` after every
sequence, videos or no videos. -/
def buildFrom (seqs : List Sequence) : List Sequence → Nat → List Node × List Edge
  | [], _ => ([], [])
  | s :: rest, y =>
      (seqNodes s y ++ (buildFrom seqs rest (y + sequenceSpacing)).1,
       seqEdges seqs s ++ (buildFrom seqs rest (y + sequenceSpacing)).2)

/-- The Diagram Builder: `{ initialNodes, initialEdges }` computed from
the input sequence list (Overview.tsx lines 103-216). -/
def buildDiagram (seqs : List Sequence) : List Node × List Edge :=
  buildFrom seqs seqs 0

/-- Recognizer for "sequence flow" edges among generated edges: they
are exactly the edges leaving a `sequence-out` handle (dependency edges
leave `prereq-out`). -/
def isFlowEdge (e : Edge) : Bool := e.sourceHandle == "sequence-out"

/-- Recognizer for "prerequisite" edges among generated edges. -/
def isPrereqEdge (e : Edge) : Bool := e.sourceHandle == "prereq-out"

/-- The identifiers of the nodes emitted for one sequence, in order:
the header node's, then one per video. -/
def blockIds (s : Sequence) : List String :=
  headerNodeId s :: s.videos.map (fun v => videoNodeId s.id v.id)

/-- The node path a sequence's "sequence flow" edges are meant to
trace, per the spec: header node first, then the video nodes in
sequence order. -/
def flowPath (s : Sequence) : List String :=
  headerNodeId s :: s.videos.map (fun v => videoNodeId s.id v.id)

/-- The chain of flow edges along a node path: one edge between each
pair of consecutive nodes (spec: "header→first, plus n−1 chained
edges", "forming a simple path"). -/
def chainEdges (color : String) : List String → List Edge
  | a :: b :: rest => flowEdge color a b :: chainEdges color (b :: rest)
  | _ => []

/-- `x` contains no dash character.  The builder joins identifiers
with `"-"`, so dash-free identifiers are what keeps the joins
injective. -/
def noDash (x : String) : Prop := ('-' : Char) ∉ x.data

instance (x : String) : Decidable (noDash x) :=
  inferInstanceAs (Decidable (('-' : Char) ∉ x.data))

/-! ### The YouTube URL recognizer (Overview.tsx lines 22-26)

```
const getYouTubeVideoId = (url: string) => {
  const regex = /(?:youtube\.com\/watch\?v=|youtu\.be\/|youtube\.com\/embed\/)([^&\n?#]+)/;
  const match = url.match(regex);
  return match ? match[1] : null;
};
```

The regex is embedded operationally: `scanMatch` scans the character
positions of the URL left to right, exactly as the unanchored regex
engine does; at each position it tries the three literal alternatives
in the regex's order (they pairwise disagree before either ends, so at
most one can match at a given position) and, on a literal match,
requires at least one following character outside `&`, `\n`, `?`, `#`
(the `[^&\n?#]+` class); the captured group is the maximal such run. -/

/-- A character the capture class `[^&\n?#]+` accepts. -/
def isIdChar (c : Char) : Bool :=
  !(c == '&' || c == '\n' || c == '?' || c == '#')

/-- The literal alternative `youtube\.com\/watch\?v=`. -/
def ytWatch : List Char := "youtube.com/watch?v=".data

/-- The literal alternative `youtu\.be\/`. -/
def ytShort : List Char := "youtu.be/".data

/-- The literal alternative `youtube\.com\/embed\/`. -/
def ytEmbed : List Char := "youtube.com/embed/".data

/-- The three known URL shapes, in the regex's alternation order. -/
def ytShapes : List (List Char) := [ytWatch, ytShort, ytEmbed]

/-- One alternative tried at one position: the literal must be a
prefix here and at least one capture-class character must follow; the
captured group is the maximal run of such characters. -/
def tryShape (pat cs : List Char) : Option (List Char) :=
  if pat.isPrefixOf cs then
    match (cs.drop pat.length).takeWhile isIdChar with
    | [] => none
    | c :: run => some (c :: run)
  else none

/-- The unanchored scan of the regex engine: try the alternatives at
this position, else advance one character. -/
def scanMatch : List Char → Option (List Char)
  | [] => none
  | c :: cs =>
    match tryShape ytWatch (c :: cs) with
    | some r => some r
    | none =>
      match tryShape ytShort (c :: cs) with
      | some r => some r
      | none =>
        match tryShape ytEmbed (c :: cs) with
        | some r => some r
        | none => scanMatch cs

/-- `getYouTubeVideoId`: the captured group of the first regex match,
or `none` (the code's `null`) when the regex does not match. -/
def getYouTubeVideoId (url : String) : Option String :=
  (scanMatch url.data).map fun cs => String.mk cs

/-- Whether `VideoNode` renders the embedded player (Overview.tsx
lines 30 and 44: `{videoId && <iframe …/>}`). -/
def embedShown (url : String) : Bool :=
  (getYouTubeVideoId url).isSome

/-- Modelled from the spec side for comparison with the code: the URL
"matches one of the known video-hosting shapes" — some position of the
URL carries one of the three literal markers immediately followed by
at least one embeddable-identifier character. -/
def matchesKnownShape (url : String) : Prop :=
  ∃ pat ∈ ytShapes, ∃ pre c rest,
    isIdChar c = true ∧ url.data = pre ++ pat ++ c :: rest

/-! ### Concrete inputs used by witnesses and counterexamples -/

/-- Sequence "A" of the spec's worked example: videos `a1` then `a2`. -/
def exA : Sequence :=
  { id := "A", title := "Path A", description := "first path", color := "#111111"
    videos :=
      [ { id := "a1", title := "A1", description := "", url := "", dependencies := none }
      , { id := "a2", title := "A2", description := "", url := "", dependencies := none } ] }

/-- Sequence "B" of the spec's worked example: one video `b1`
depending on `a2`. -/
def exB : Sequence :=
  { id := "B", title := "Path B", description := "second path", color := "#222222"
    videos :=
      [ { id := "b1", title := "B1", description := "", url := "", dependencies := some ["a2"] } ] }

/-- A sequence whose video `dup` also occurs (by identifier) in
`dupLater`: input order decides which node a dependency on `dup`
resolves to. -/
def dupFirst : Sequence :=
  { id := "F", title := "", description := "", color := "#333333"
    videos := [ { id := "dup", title := "", description := "", url := "", dependencies := none } ] }

/-- A later sequence also containing a video named `dup`, plus a video
that depends on `dup`. -/
def dupLater : Sequence :=
  { id := "L", title := "", description := "", color := "#444444"
    videos :=
      [ { id := "dup", title := "", description := "", url := "", dependencies := none }
      , { id := "x", title := "", description := "", url := "", dependencies := some ["dup"] } ] }

/-- A sequence with no videos at all. -/
def emptySeq : Sequence :=
  { id := "E", title := "Empty", description := "", color := "#555555", videos := [] }

/-- First half of the node-identifier collision input: sequence `a`
with the single video `b-c`. -/
def cexSeq1 : Sequence :=
  { id := "a", title := "", description := "", color := "#666666"
    videos := [ { id := "b-c", title := "", description := "", url := "", dependencies := none } ] }

/-- Second half of the node-identifier collision input: sequence `a-b`
with the single video `c`.  Both video nodes get identifier `a-b-c`. -/
def cexSeq2 : Sequence :=
  { id := "a-b", title := "", description := "", color := "#777777"
    videos := [ { id := "c", title := "", description := "", url := "", dependencies := none } ] }

/-! ## Shared lemmas about the builder's output -/

/-- The edge list of the builder is the concatenation, in input order,
of the edges contributed by each sequence (the vertical offset plays
no role in edges). -/
lemma buildFrom_snd (all : List Sequence) :
    ∀ (l : List Sequence) (y : Nat),
      (buildFrom all l y).2 = l.flatMap (fun s => seqEdges all s)
  | [], _ => rfl
  | s :: rest, y => by
      simp [buildFrom, List.flatMap_cons, buildFrom_snd all rest (y + sequenceSpacing)]

/-- Shifting the start index of `enumFrom` by one. -/
lemma enumFrom_shift {α : Type} (l : List α) :
    ∀ n : Nat, l.enumFrom (n + 1) = (l.enumFrom n).map (fun p => (p.1 + 1, p.2)) := by
  induction l with
  | nil => intro n; rfl
  | cons a as ih =>
      intro n
      simp [List.enumFrom_cons, ih (n + 1)]

/-- The node list of the builder is the concatenation over enumerated
sequences of each sequence's node block at its grid offset. -/
lemma buildFrom_fst (all : List Sequence) :
    ∀ (l : List Sequence) (y : Nat),
      (buildFrom all l y).1 =
        l.enum.flatMap (fun p => seqNodes p.2 (y + p.1 * sequenceSpacing))
  | [], _ => rfl
  | s :: rest, y => by
      have ih := buildFrom_fst all rest (y + sequenceSpacing)
      have hshift : rest.enumFrom 1 = rest.enum.map (fun p => (p.1 + 1, p.2)) :=
        enumFrom_shift rest 0
      have hfun : (fun p : Nat × Sequence => seqNodes p.2 (y + (p.1 + 1) * sequenceSpacing)) =
          (fun p : Nat × Sequence => seqNodes p.2 (y + sequenceSpacing + p.1 * sequenceSpacing)) := by
        funext p
        have h : y + (p.1 + 1) * sequenceSpacing =
            y + sequenceSpacing + p.1 * sequenceSpacing := by ring
        rw [h]
      simp only [buildFrom, List.enum_cons, List.flatMap_cons, hshift, List.flatMap_map,
        Function.comp_def, Nat.zero_mul, Nat.add_zero, hfun, ih]

/-- Node count of one sequence's block: the header plus one node per
video. -/
lemma seqNodes_length (s : Sequence) (y : Nat) :
    (seqNodes s y).length = 1 + s.videos.length := by
  simp [seqNodes, List.enum_length]
  omega

/-- Node count of the loop over any suffix of the input. -/
lemma buildFrom_fst_length (all : List Sequence) :
    ∀ (l : List Sequence) (y : Nat),
      (buildFrom all l y).1.length =
        l.length + (l.map (fun s => s.videos.length)).sum
  | [], _ => rfl
  | s :: rest, y => by
      simp [buildFrom, seqNodes_length s y,
        buildFrom_fst_length all rest (y + sequenceSpacing)]
      omega

/-! ## The claims -/

/-- C6: the Diagram Builder is deterministic — it is a pure function
of the input sequence list, so two runs on the same input produce the
same node list (identifiers and positions included) and the same edge
list. -/
theorem builder_deterministic (seqs : List Sequence) :
    buildDiagram seqs = buildDiagram seqs := rfl

/-- C10: the builder emits exactly one header node per sequence and
one node per video, so the total node count is the number of sequences
plus the total number of videos, whatever the dependency lists and
URLs contain. -/
theorem node_count (seqs : List Sequence) :
    (buildDiagram seqs).1.length =
      seqs.length + (seqs.map (fun s => s.videos.length)).sum :=
  buildFrom_fst_length seqs seqs 0

/-- C9: a sequence with no videos contributes exactly its header node
and no edges, and the running vertical offset still advances by
`sequenceSpacing` for the remaining sequences. -/
theorem empty_sequence_header_only (all rest : List Sequence) (s : Sequence) (y : Nat)
    (h : s.videos = []) :
    seqNodes s y = [headerNode s y] ∧
    seqEdges all s = [] ∧
    buildFrom all (s :: rest) y =
      (headerNode s y :: (buildFrom all rest (y + sequenceSpacing)).1,
       (buildFrom all rest (y + sequenceSpacing)).2) := by
  refine ⟨by simp [seqNodes, h], by simp [seqEdges, h, videosEdges], ?_⟩
  simp [buildFrom, seqNodes, seqEdges, h, videosEdges]

/-- Witness for C9 at a concrete input: the empty sequence `E`
followed by sequence `A`. -/
theorem empty_sequence_header_only_witness :
    seqNodes emptySeq 0 = [headerNode emptySeq 0] ∧
    seqEdges [emptySeq, exA] emptySeq = [] ∧
    buildFrom [emptySeq, exA] [emptySeq, exA] 0 =
      (headerNode emptySeq 0 :: (buildFrom [emptySeq, exA] [exA] (0 + sequenceSpacing)).1,
       (buildFrom [emptySeq, exA] [exA] (0 + sequenceSpacing)).2) :=
  empty_sequence_header_only [emptySeq, exA] [exA] emptySeq 0 rfl

/-- C4: the spec's worked example.  On sequences `A` (videos `a1`,
`a2`) and `B` (video `b1` depending on `a2`) the builder produces
exactly the five nodes the spec calls `seq-A`, `A-a1`, `A-a2`,
`seq-B`, `B-b1` (the header node of a sequence `S` carries the
identifier `sequence-S`), and exactly the four expected edges — the
flow edges `seq-A→A-a1`, `A-a1→A-a2`, `seq-B→B-b1` and the single
"prerequisite" edge `A-a2→B-b1`. -/
theorem example_two_sequences :
    (buildDiagram [exA, exB]).1 =
      [ { id := "sequence-A", type := "sequenceHeader", position := { x := 0, y := 0 }
          data := .header "Path A" "first path" "#111111" }
      , { id := "A-a1", type := "videoNode", position := { x := 420, y := 0 }
          data := .video "A1" "" "" "#111111" }
      , { id := "A-a2", type := "videoNode", position := { x := 840, y := 0 }
          data := .video "A2" "" "" "#111111" }
      , { id := "sequence-B", type := "sequenceHeader", position := { x := 0, y := 600 }
          data := .header "Path B" "second path" "#222222" }
      , { id := "B-b1", type := "videoNode", position := { x := 420, y := 600 }
          data := .video "B1" "" "" "#222222" } ] ∧
    (buildDiagram [exA, exB]).2 =
      [ { id := "sequence-A-A-a1", source := "sequence-A", sourceHandle := "sequence-out"
          target := "A-a1", targetHandle := "sequence-in", type := "smoothstep"
          stroke := "#111111", strokeWidth := 2, strokeDasharray := none, label := none }
      , { id := "A-a1-A-a2", source := "A-a1", sourceHandle := "sequence-out"
          target := "A-a2", targetHandle := "sequence-in", type := "smoothstep"
          stroke := "#111111", strokeWidth := 2, strokeDasharray := none, label := none }
      , { id := "sequence-B-B-b1", source := "sequence-B", sourceHandle := "sequence-out"
          target := "B-b1", targetHandle := "sequence-in", type := "smoothstep"
          stroke := "#222222", strokeWidth := 2, strokeDasharray := none, label := none }
      , { id := "A-a2-B-b1-dependency", source := "A-a2", sourceHandle := "prereq-out"
          target := "B-b1", targetHandle := "prereq-in", type := "smoothstep"
          stroke := "#ef4444", strokeWidth := 3, strokeDasharray := some "8,4"
          label := some "🔗 prerequisite" } ] ∧
    (buildDiagram [exA, exB]).2.countP isPrereqEdge = 1 := by
  refine ⟨by decide, by decide, by decide⟩

/-- Every edge produced for a dependency is a `depEdge`, hence not a
flow edge. -/
lemma mem_depEdgesOf {seqs : List Sequence} {v : Video} {nid : String} {e : Edge}
    (h : e ∈ depEdgesOf seqs v nid) : ∃ src, e = depEdge src nid := by
  unfold depEdgesOf at h
  cases hd : v.dependencies with
  | none => rw [hd] at h; cases h
  | some deps =>
      rw [hd] at h
      rcases List.mem_filterMap.mp h with ⟨d, _, hsome⟩
      rcases Option.map_eq_some'.mp hsome with ⟨src, _, heq⟩
      exact ⟨src, heq.symm⟩

/-- A dependency edge leaves the `prereq-out` handle, not
`sequence-out`. -/
lemma isFlowEdge_depEdge (src nid : String) : isFlowEdge (depEdge src nid) = false := rfl

/-- A flow edge leaves the `sequence-out` handle. -/
lemma isFlowEdge_flowEdge (c a b : String) : isFlowEdge (flowEdge c a b) = true := rfl

/-- Dependency edges never pass the flow-edge filter. -/
lemma filter_flow_depEdgesOf (seqs : List Sequence) (v : Video) (nid : String) :
    (depEdgesOf seqs v nid).filter isFlowEdge = [] := by
  rw [List.filter_eq_nil_iff]
  intro e he
  rcases mem_depEdgesOf he with ⟨src, rfl⟩
  simp [isFlowEdge_depEdge]

/-- The flow edges among a sequence's edges trace exactly the chain
from `prev` through the video nodes in order. -/
lemma videosEdges_filter_flow (seqs : List Sequence) (s : Sequence) :
    ∀ (vids : List Video) (prev : String),
      (videosEdges seqs s vids prev).filter isFlowEdge =
        chainEdges s.color (prev :: vids.map (fun v => videoNodeId s.id v.id))
  | [], prev => rfl
  | v :: rest, prev => by
      have hflow : isFlowEdge (flowEdge s.color prev (videoNodeId s.id v.id)) = true :=
        isFlowEdge_flowEdge _ _ _
      simp only [videosEdges, List.filter_cons, hflow, if_true, List.filter_append,
        filter_flow_depEdgesOf, List.nil_append, List.map_cons, chainEdges,
        videosEdges_filter_flow seqs s rest (videoNodeId s.id v.id)]

/-- A chain along `a :: l` has one edge per element of `l`. -/
lemma chainEdges_length (c : String) :
    ∀ (l : List String) (a : String), (chainEdges c (a :: l)).length = l.length
  | [], _ => rfl
  | b :: l, a => by
      simp only [chainEdges, List.length_cons, chainEdges_length c l b]

/-- C1: the builder's edge list is the concatenation of each
sequence's edges, and within any sequence's edges the "sequence flow"
edges are exactly the chain from the header node through the video
nodes in order — header→first video plus video→next video — so their
number equals the number of videos of that sequence. -/
theorem sequence_flow_edges_per_sequence (seqs : List Sequence) :
    (buildDiagram seqs).2 = seqs.flatMap (fun s => seqEdges seqs s) ∧
    ∀ s : Sequence,
      (seqEdges seqs s).filter isFlowEdge = chainEdges s.color (flowPath s) ∧
      (seqEdges seqs s).countP isFlowEdge = s.videos.length := by
  refine ⟨buildFrom_snd seqs seqs 0, fun s => ⟨?_, ?_⟩⟩
  · exact videosEdges_filter_flow seqs s s.videos (headerNodeId s)
  · rw [List.countP_eq_length_filter, seqEdges,
      videosEdges_filter_flow seqs s s.videos (headerNodeId s),
      chainEdges_length, List.length_map]

/-- The boolean guard of `resolveDep` — `find?` over all sequences'
videos — succeeds exactly when some video in the data set carries the
identifier. -/
lemma exists_video_iff_guard (seqs : List Sequence) (d : String) :
    ((seqs.flatMap (fun s => s.videos)).find? (fun v => v.id == d)).isSome = true ↔
      ∃ s ∈ seqs, ∃ v ∈ s.videos, v.id = d := by
  rw [List.find?_isSome]
  constructor
  · rintro ⟨v, hv, hbeq⟩
    rcases List.mem_flatMap.mp hv with ⟨s, hs, hvs⟩
    exact ⟨s, hs, v, hvs, by simpa using hbeq⟩
  · rintro ⟨s, hs, v, hvs, hid⟩
    exact ⟨v, List.mem_flatMap.mpr ⟨s, hs, hvs⟩, by simpa using hid⟩

/-- C2: a dependency identifier that no video in the data set carries
produces no edge and no failure (`depEdgeFor` totally returns `none`,
the code's skipped push); an identifier some video carries produces
exactly one "prerequisite" edge, sourced at the node built from an
owning sequence's identifier and targeted at the dependent video's
node. -/
theorem dependency_edges_resolution (seqs : List Sequence) (d nid : String) :
    (¬(∃ s ∈ seqs, ∃ v ∈ s.videos, v.id = d) → depEdgeFor seqs d nid = none) ∧
    ((∃ s ∈ seqs, ∃ v ∈ s.videos, v.id = d) →
      ∃ s ∈ seqs, (∃ v ∈ s.videos, v.id = d) ∧
        depEdgeFor seqs d nid = some (depEdge (videoNodeId s.id d) nid)) := by
  constructor
  · intro h
    have hg : ((seqs.flatMap (fun s => s.videos)).find? (fun v => v.id == d)).isSome = false := by
      rw [Bool.eq_false_iff]
      intro hc
      exact h ((exists_video_iff_guard seqs d).mp hc)
    unfold depEdgeFor resolveDep
    rw [if_neg (by rw [hg]; exact Bool.false_ne_true)]
    rfl
  · intro h
    have hg : ((seqs.flatMap (fun s => s.videos)).find? (fun v => v.id == d)).isSome = true :=
      (exists_video_iff_guard seqs d).mpr h
    have hfs : (seqs.find? (fun s => s.videos.any (fun v => v.id == d))).isSome = true := by
      rw [List.find?_isSome]
      rcases h with ⟨s, hs, v, hvs, hid⟩
      exact ⟨s, hs, List.any_eq_true.mpr ⟨v, hvs, by simpa using hid⟩⟩
    obtain ⟨s', hfind⟩ := Option.isSome_iff_exists.mp hfs
    have hs'mem : s' ∈ seqs := List.mem_of_find?_eq_some hfind
    have hs'pred : s'.videos.any (fun v => v.id == d) = true :=
      (List.find?_eq_some.mp hfind).1
    refine ⟨s', hs'mem, ?_, ?_⟩
    · rcases List.any_eq_true.mp hs'pred with ⟨v, hv, hbeq⟩
      exact ⟨v, hv, by simpa using hbeq⟩
    · unfold depEdgeFor resolveDep
      rw [if_pos hg, hfind]
      rfl

/-- Witness for C2 at a concrete input: the identifier `zzz` occurs
nowhere in the example data, so its dependency entry is skipped
silently. -/
theorem dependency_edges_resolution_witness :
    depEdgeFor [exA, exB] "zzz" "B-b1" = none :=
  (dependency_edges_resolution [exA, exB] "zzz" "B-b1").1 (by decide)

/-- `find?` over a split list whose front all fails the check returns
the splitting element when it passes. -/
lemma find?_append_first {α : Type} (p : α → Bool) :
    ∀ (pre : List α) (a : α) (post : List α),
      (∀ x ∈ pre, p x = false) → p a = true →
      (pre ++ a :: post).find? p = some a
  | [], a, post => fun _ ha => by simp [List.find?_cons, ha]
  | x :: xs, a, post => fun hpre ha => by
      have hx : p x = false := hpre x (by simp)
      simp only [List.cons_append, List.find?_cons, hx]
      exact find?_append_first p xs a post (fun y hy => hpre y (by simp [hy])) ha

/-- C8: when the same video identifier occurs in several sequences, a
dependency on it resolves to the first sequence in input order that
contains such a video — the emitted "prerequisite" edge's source node
identifier is built from that sequence's identifier. -/
theorem dependency_resolves_to_first_sequence
    (pre post : List Sequence) (s : Sequence) (d nid : String)
    (hpre : ∀ t ∈ pre, ∀ v ∈ t.videos, v.id ≠ d)
    (hs : ∃ v ∈ s.videos, v.id = d) :
    depEdgeFor (pre ++ s :: post) d nid = some (depEdge (videoNodeId s.id d) nid) := by
  have hpred : s.videos.any (fun v => v.id == d) = true := by
    rcases hs with ⟨v, hv, hid⟩
    exact List.any_eq_true.mpr ⟨v, hv, by simpa using hid⟩
  have hfind : (pre ++ s :: post).find? (fun t => t.videos.any (fun v => v.id == d)) = some s := by
    refine find?_append_first _ pre s post ?_ hpred
    intro t ht
    rw [Bool.eq_false_iff]
    intro hc
    rcases List.any_eq_true.mp hc with ⟨v, hv, hbeq⟩
    exact hpre t ht v hv (by simpa using hbeq)
  have hg : (((pre ++ s :: post).flatMap (fun t => t.videos)).find?
      (fun v => v.id == d)).isSome = true := by
    refine (exists_video_iff_guard _ d).mpr ?_
    rcases hs with ⟨v, hv, hid⟩
    exact ⟨s, by simp, v, hv, hid⟩
  unfold depEdgeFor resolveDep
  rw [if_pos hg, hfind]
  rfl

/-- Witness for C8 at a concrete input: `dup` occurs in sequences `F`
and `L`; the dependency of video `x` resolves to `F`'s node `F-dup`,
not `L`'s. -/
theorem dependency_resolves_to_first_sequence_witness :
    depEdgeFor ([exA] ++ dupFirst :: [dupLater]) "dup" "L-x" =
      some (depEdge (videoNodeId "F" "dup") "L-x") :=
  dependency_resolves_to_first_sequence [exA] [dupLater] dupFirst "dup" "L-x"
    (by decide) (by decide)

/-- C5: node positions follow the fixed grid.  The node list is the
concatenation, over sequences enumerated in input order, of each
sequence's block taken at vertical offset `k * sequenceSpacing` for
the `k`-th sequence; within a block the header node sits at the
horizontal origin and the `i`-th video node (0-based) sits one
`videoSpacing` step per position to the right of the origin slot,
at the sequence's vertical offset. -/
theorem layout_fixed_grid (seqs : List Sequence) :
    (buildDiagram seqs).1 =
      seqs.enum.flatMap (fun p => seqNodes p.2 (p.1 * sequenceSpacing)) ∧
    (∀ s y, seqNodes s y =
      headerNode s y :: s.videos.enum.map (fun q => videoNode s q.2 q.1 y)) ∧
    (∀ s y, (headerNode s y).position = { x := 0, y := y }) ∧
    (∀ s v i y, (videoNode s v i y).position = { x := (i + 1) * videoSpacing, y := y }) := by
  refine ⟨?_, fun s y => rfl, fun s y => rfl, fun s v i y => rfl⟩
  simpa [buildDiagram] using buildFrom_fst seqs seqs 0

/-- C3, counterexample: with sequence `a` holding video `b-c` and
sequence `a-b` holding video `c`, video identifiers are unique within
their owning sequences, yet both video nodes receive the identifier
`a-b-c` — the generated node identifiers are not pairwise distinct. -/
theorem node_ids_unique_counterexample :
    (∀ s ∈ [cexSeq1, cexSeq2], (s.videos.map Video.id).Nodup) ∧
    ¬ ((buildDiagram [cexSeq1, cexSeq2]).1.map Node.id).Nodup := by
  exact ⟨by decide, by decide⟩

/-- The identifier of every node of a block. -/
lemma seqNodes_map_id (s : Sequence) (y : Nat) :
    (seqNodes s y).map Node.id = blockIds s := by
  simp only [seqNodes, List.map_cons, List.map_map, blockIds]
  refine congrArg (fun t => (headerNode s y).id :: t) ?_
  have hcomp : (Node.id ∘ fun q : Nat × Video => videoNode s q.2 q.1 y) =
      ((fun v => videoNodeId s.id v.id) ∘ Prod.snd) := rfl
  rw [hcomp, ← List.map_map, List.enum_map_snd]

/-- The node identifiers of the whole diagram, in order: each
sequence's block of identifiers, concatenated. -/
lemma buildFrom_map_id (all : List Sequence) :
    ∀ (l : List Sequence) (y : Nat),
      ((buildFrom all l y).1.map Node.id) = l.flatMap blockIds
  | [], _ => rfl
  | s :: rest, y => by
      simp only [buildFrom, List.map_append, seqNodes_map_id, List.flatMap_cons,
        buildFrom_map_id all rest (y + sequenceSpacing)]

/-- Splitting a character list at a dash is unambiguous when the parts
before the dash are dash-free. -/
lemma splitAtDash : ∀ {l1 : List Char} {r1 : List Char} {l2 : List Char} {r2 : List Char},
    ('-' : Char) ∉ l1 → ('-' : Char) ∉ l2 →
    l1 ++ '-' :: r1 = l2 ++ '-' :: r2 → l1 = l2 ∧ r1 = r2 := by
  intro l1
  induction l1 with
  | nil =>
      intro r1 l2 r2 _ h2 h
      cases l2 with
      | nil => simpa using h
      | cons x xs =>
          exfalso
          have hx : '-' = x := by simpa using congrArg (fun l => l.head?) h
          exact h2 (hx ▸ List.mem_cons_self x xs)
  | cons a as ih =>
      intro r1 l2 r2 h1 h2 h
      cases l2 with
      | nil =>
          exfalso
          have ha : a = '-' := by simpa using congrArg (fun l => l.head?) h
          exact h1 (ha ▸ List.mem_cons_self a as)
      | cons x xs =>
          have hax : a = x ∧ as ++ '-' :: r1 = xs ++ '-' :: r2 := by
            simpa using h
          have h1' : ('-' : Char) ∉ as := fun hm => h1 (List.mem_cons_of_mem a hm)
          have h2' : ('-' : Char) ∉ xs := fun hm => h2 (List.mem_cons_of_mem x hm)
          obtain ⟨hl, hr⟩ := ih h1' h2' hax.2
          exact ⟨by rw [hax.1, hl], hr⟩

/-- Joining two strings with `"-"` is injective as long as the left
parts are dash-free. -/
lemma string_dash_inj {a b c d : String}
    (ha : noDash a) (hc : noDash c)
    (h : a ++ "-" ++ b = c ++ "-" ++ d) : a = c ∧ b = d := by
  have hdash : ("-" : String).data = ['-'] := by decide
  have hdata : a.data ++ '-' :: b.data = c.data ++ '-' :: d.data := by
    have hd := congrArg String.data h
    simpa [String.data_append, hdash] using hd
  obtain ⟨h1, h2⟩ := splitAtDash ha hc hdata
  exact ⟨String.ext h1, String.ext h2⟩

/-- The header identifier is the dash-join of the literal `sequence`
and the sequence's identifier. -/
lemma headerNodeId_eq (s : Sequence) : headerNodeId s = "sequence" ++ "-" ++ s.id := by
  unfold headerNodeId
  have h : ("sequence-" : String) = "sequence" ++ "-" := by decide
  rw [h]

/-- The literal `sequence` is dash-free. -/
lemma noDash_sequence : noDash "sequence" := by
  unfold noDash
  decide

/-- C3, amended: node identifiers are pairwise distinct across the
whole diagram provided, in addition to video identifiers being unique
within their owning sequence, that sequence identifiers are pairwise
distinct, that no sequence or video identifier contains the dash used
as join character, and that no sequence identifier is the literal
`sequence` used as header prefix.  (The counterexample shows the
extra hypotheses are needed: dash-carrying identifiers make the joins
ambiguous.) -/
theorem node_ids_unique_amended (seqs : List Sequence)
    (hseq : (seqs.map Sequence.id).Nodup)
    (hvid : ∀ s ∈ seqs, (s.videos.map Video.id).Nodup)
    (hnd : ∀ s ∈ seqs, noDash s.id ∧ s.id ≠ "sequence" ∧ ∀ v ∈ s.videos, noDash v.id) :
    ((buildDiagram seqs).1.map Node.id).Nodup := by
  rw [show (buildDiagram seqs).1.map Node.id = seqs.flatMap blockIds from
    buildFrom_map_id seqs seqs 0]
  rw [List.nodup_flatMap]
  constructor
  · intro s hs
    obtain ⟨hnds, hnseq, hndv⟩ := hnd s hs
    rw [blockIds, List.nodup_cons]
    constructor
    · intro hmem
      rcases List.mem_map.mp hmem with ⟨v, hv, heq⟩
      rw [headerNodeId_eq] at heq
      obtain ⟨h1, _⟩ := string_dash_inj hnds noDash_sequence heq
      exact hnseq h1
    · have hrw : s.videos.map (fun v => videoNodeId s.id v.id) =
          (s.videos.map Video.id).map (fun i => videoNodeId s.id i) := by
        rw [List.map_map]; rfl
      rw [hrw]
      refine List.Nodup.map_on ?_ (hvid s hs)
      intro x _ y _ hxy
      exact (string_dash_inj hnds hnds hxy).2
  · have hpw : seqs.Pairwise (fun s t => s.id ≠ t.id) := List.pairwise_map.mp hseq
    refine hpw.imp_of_mem ?_
    intro s t hsmem htmem hne
    obtain ⟨hnds, hnsseq, hndsv⟩ := hnd s hsmem
    obtain ⟨hndt, hntseq, hndtv⟩ := hnd t htmem
    intro x hxs hxt
    rw [blockIds, List.mem_cons] at hxs hxt
    rcases hxs with hxs | hxs <;> rcases hxt with hxt | hxt
    · have heq : headerNodeId s = headerNodeId t := by rw [← hxs, hxt]
      rw [headerNodeId_eq, headerNodeId_eq] at heq
      exact hne (string_dash_inj noDash_sequence noDash_sequence heq).2
    · rcases List.mem_map.mp hxt with ⟨v, _, hveq⟩
      have heq : "sequence" ++ "-" ++ s.id = t.id ++ "-" ++ v.id := by
        rw [← headerNodeId_eq, ← hxs]
        exact hveq.symm
      exact hntseq (string_dash_inj noDash_sequence hndt heq).1.symm
    · rcases List.mem_map.mp hxs with ⟨v, _, hveq⟩
      have heq : "sequence" ++ "-" ++ t.id = s.id ++ "-" ++ v.id := by
        rw [← headerNodeId_eq, ← hxt]
        exact hveq.symm
      exact hnsseq (string_dash_inj noDash_sequence hnds heq).1.symm
    · rcases List.mem_map.mp hxs with ⟨v, _, hveq⟩
      rcases List.mem_map.mp hxt with ⟨w, _, hweq⟩
      have heq : s.id ++ "-" ++ v.id = t.id ++ "-" ++ w.id := hveq.trans hweq.symm
      exact hne (string_dash_inj hnds hndt heq).1

/-- Witness for the amended C3 at a concrete input: the example data
satisfies all hypotheses and indeed yields pairwise distinct node
identifiers. -/
theorem node_ids_unique_amended_witness :
    ((buildDiagram [exA, exB]).1.map Node.id).Nodup :=
  node_ids_unique_amended [exA, exB] (by decide) (by decide) (by decide)

/-- Boolean list-prefix test, characterized as an append split. -/
lemma prefixOf_iff : ∀ (p l : List Char), p.isPrefixOf l = true ↔ ∃ t, l = p ++ t := by
  intro p
  induction p with
  | nil =>
      intro l
      exact ⟨fun _ => ⟨l, by simp⟩, fun _ => by cases l <;> rfl⟩
  | cons a as ih =>
      intro l
      cases l with
      | nil =>
          simp only [List.isPrefixOf, List.cons_append]
          exact ⟨fun h => Bool.noConfusion h, fun ⟨t, ht⟩ => List.noConfusion ht⟩
      | cons b bs =>
          simp only [List.isPrefixOf, Bool.and_eq_true, List.cons_append]
          constructor
          · rintro ⟨hab, hrest⟩
            obtain ⟨t, ht⟩ := (ih bs).mp hrest
            have hab' : a = b := by simpa using hab
            exact ⟨t, by rw [ht, hab']⟩
          · rintro ⟨t, ht⟩
            have hb : b = a ∧ bs = as ++ t := by simpa using ht
            exact ⟨by simp [hb.1], (ih bs).mpr ⟨t, hb.2⟩⟩

/-- One alternative succeeds at the current position exactly when the
literal sits here followed by at least one capture-class character. -/
lemma tryShape_isSome_iff (pat cs : List Char) :
    (tryShape pat cs).isSome = true ↔
      ∃ c rest, isIdChar c = true ∧ cs = pat ++ c :: rest := by
  unfold tryShape
  by_cases hpre : pat.isPrefixOf cs = true
  · rw [if_pos hpre]
    obtain ⟨t, rfl⟩ := (prefixOf_iff pat cs).mp hpre
    rw [List.drop_left]
    cases t with
    | nil =>
        simp only [List.takeWhile_nil]
        constructor
        · intro h
          exact absurd h (by simp)
        · rintro ⟨c, rest, _, happ⟩
          exact List.noConfusion (List.append_cancel_left happ)
    | cons c t' =>
        rw [List.takeWhile_cons]
        by_cases hc : isIdChar c = true
        · rw [if_pos hc]
          simp only [Option.isSome_some, true_iff]
          exact ⟨c, t', hc, rfl⟩
        · rw [if_neg hc]
          simp only [Option.isSome_none, Bool.false_eq_true, false_iff]
          rintro ⟨c', rest, hc', happ⟩
          have hcc : c = c' ∧ t' = rest := by
            simpa using List.append_cancel_left happ
          exact hc (by rw [hcc.1]; exact hc')
  · rw [if_neg hpre]
    simp only [Option.isSome_none, Bool.false_eq_true, false_iff]
    rintro ⟨c, rest, _, rfl⟩
    exact hpre ((prefixOf_iff _ _).mpr ⟨c :: rest, rfl⟩)

/-- The scan of one position: either an alternative matches here, or
the scan continues one character further. -/
lemma scanMatch_cons (x : Char) (xs : List Char) :
    (scanMatch (x :: xs)).isSome = true ↔
      ((tryShape ytWatch (x :: xs)).isSome = true ∨
       (tryShape ytShort (x :: xs)).isSome = true ∨
       (tryShape ytEmbed (x :: xs)).isSome = true ∨
       (scanMatch xs).isSome = true) := by
  cases h1 : tryShape ytWatch (x :: xs) <;>
    cases h2 : tryShape ytShort (x :: xs) <;>
      cases h3 : tryShape ytEmbed (x :: xs) <;>
        simp [scanMatch, h1, h2, h3]

/-- The unanchored scan succeeds exactly when some position of the
input carries one of the three literal markers immediately followed by
a capture-class character. -/
lemma scanMatch_isSome_iff : ∀ cs : List Char,
    (scanMatch cs).isSome = true ↔
      ∃ pat ∈ ytShapes, ∃ pre c rest, isIdChar c = true ∧ cs = pre ++ pat ++ c :: rest := by
  intro cs
  induction cs with
  | nil =>
      simp only [scanMatch, Option.isSome_none, Bool.false_eq_true, false_iff]
      rintro ⟨pat, _, pre, c, rest, _, happ⟩
      have : pre ++ pat ++ c :: rest ≠ [] := by simp
      exact this happ.symm
  | cons x xs ih =>
      rw [scanMatch_cons]
      constructor
      · rintro (h | h | h | h)
        · obtain ⟨c, rest, hc, happ⟩ := (tryShape_isSome_iff _ _).mp h
          exact ⟨ytWatch, by simp [ytShapes], [], c, rest, hc, by simpa using happ⟩
        · obtain ⟨c, rest, hc, happ⟩ := (tryShape_isSome_iff _ _).mp h
          exact ⟨ytShort, by simp [ytShapes], [], c, rest, hc, by simpa using happ⟩
        · obtain ⟨c, rest, hc, happ⟩ := (tryShape_isSome_iff _ _).mp h
          exact ⟨ytEmbed, by simp [ytShapes], [], c, rest, hc, by simpa using happ⟩
        · obtain ⟨pat, hpat, pre, c, rest, hc, happ⟩ := ih.mp h
          exact ⟨pat, hpat, x :: pre, c, rest, hc, by simp [happ]⟩
      · rintro ⟨pat, hpat, pre, c, rest, hc, happ⟩
        cases pre with
        | nil =>
            have htry : (tryShape pat (x :: xs)).isSome = true :=
              (tryShape_isSome_iff _ _).mpr ⟨c, rest, hc, by simpa using happ⟩
            have hpat' : pat = ytWatch ∨ pat = ytShort ∨ pat = ytEmbed := by
              simpa [ytShapes] using hpat
            rcases hpat' with rfl | rfl | rfl
            · exact Or.inl htry
            · exact Or.inr (Or.inl htry)
            · exact Or.inr (Or.inr (Or.inl htry))
        | cons z pre' =>
            have hxs : x = z ∧ xs = pre' ++ pat ++ c :: rest := by simpa using happ
            exact Or.inr (Or.inr (Or.inr
              (ih.mpr ⟨pat, hpat, pre', c, rest, hc, hxs.2⟩)))

/-- C7: the URL recognizer returns an identifier exactly when the URL
matches one of the three known video-hosting shapes
(`youtube.com/watch?v=`, `youtu.be/`, `youtube.com/embed/` followed by
an embeddable identifier character); on any other string it totally
returns `none` — no failure — and the embedded preview is
suppressed. -/
theorem youtube_id_iff_known_shape (url : String) :
    ((∃ vid, getYouTubeVideoId url = some vid) ↔ matchesKnownShape url) ∧
    (¬ matchesKnownShape url →
      getYouTubeVideoId url = none ∧ embedShown url = false) := by
  have hmap : (getYouTubeVideoId url).isSome = (scanMatch url.data).isSome := by
    unfold getYouTubeVideoId
    cases scanMatch url.data <;> rfl
  have hiff : (getYouTubeVideoId url).isSome = true ↔ matchesKnownShape url := by
    rw [hmap]
    exact scanMatch_isSome_iff url.data
  refine ⟨Option.isSome_iff_exists.symm.trans hiff, fun h => ?_⟩
  have hfalse : (getYouTubeVideoId url).isSome = false := by
    rw [Bool.eq_false_iff]
    intro hc
    exact h (hiff.mp hc)
  refine ⟨Option.not_isSome_iff_eq_none.mp (by simp [hfalse]), ?_⟩
  unfold embedShown
  exact hfalse

/-- Witness for C7 at a concrete input: `hello` matches no known
shape, so no identifier is returned and the embed is suppressed. -/
theorem youtube_id_iff_known_shape_witness :
    getYouTubeVideoId "hello" = none ∧ embedShown "hello" = false :=
  (youtube_id_iff_known_shape "hello").2 (fun h => by
    obtain ⟨vid, hvid⟩ := (youtube_id_iff_known_shape "hello").1.mpr h
    rw [show getYouTubeVideoId "hello" = none from by decide] at hvid
    exact Option.noConfusion hvid)

end CsPathways
